import Mathlib

/-!
Verification development for the Brute-Force-Eth-Wallet repository.

The Python source is shallowly embedded: pure functions become Lean
functions, the mutable `tried_permutations` set and the class-level
`DERIVATION_PATHS` list become explicit state threaded through the
definitions, raised exceptions become `Except` values, and the external
cryptographic services (BIP-39 word list membership, seed generation,
HD key derivation) become function parameters, as the specification
treats them as black boxes.
-/

/-! ### Python string primitives (str.lower, str.strip, str.split, " ".join) -/

/-- Python `str.lower()` (character-wise, as used on ASCII BIP-39 words). -/
def pyLower (s : String) : String :=
  String.mk (s.data.map Char.toLower)

/-- Python `str.strip()`: drop leading and trailing whitespace. -/
def pyStrip (s : String) : String :=
  String.mk (((s.data.dropWhile Char.isWhitespace).reverse.dropWhile
    Char.isWhitespace).reverse)

/-- Characters stripped by the source's `strip('"\x27')` calls. -/
def isQuoteChar (c : Char) : Bool :=
  (c == '"') || (c == '\x27')

/-- Python `str.strip('"\x27')`: drop leading and trailing quote characters. -/
def pyStripQuotes (s : String) : String :=
  String.mk (((s.data.dropWhile isQuoteChar).reverse.dropWhile isQuoteChar).reverse)

/-- The normalization `str(w).lower().strip().strip('"\x27')` used by
`construct_mnemonic` and by the config loader. -/
def pyCleanWord (w : String) : String :=
  pyStripQuotes (pyStrip (pyLower w))

/-- The normalization `word.lower().strip()` used by `validate_word_list`
and by the trial-3 generator on pool candidates. -/
def pyNormWord (w : String) : String :=
  pyStrip (pyLower w)

/-- One step of whitespace-splitting, consuming characters from the right. -/
def splitFoldFn (c : Char) (acc : List (List Char)) : List (List Char) :=
  if c.isWhitespace then [] :: acc
  else
    match acc with
    | [] => [[c]]
    | w :: ws => (c :: w) :: ws

/-- Python `str.split()` with no arguments: split on whitespace runs,
dropping empty pieces. -/
def pySplit (s : String) : List String :=
  ((s.data.foldr splitFoldFn []).filter (fun w => !w.isEmpty)).map String.mk

/-- Python `" ".join(words)`. -/
def joinWords : List String → String
  | [] => ""
  | w :: ws =>
    match ws with
    | [] => w
    | _ :: _ => w ++ " " ++ joinWords ws

/-- `joinWords` at the level of character lists, for injectivity reasoning. -/
def joinData : List (List Char) → List Char
  | [] => []
  | w :: ws =>
    match ws with
    | [] => w
    | _ :: _ => w ++ ' ' :: joinData ws

/-- A word not containing the separator character of `joinWords`. -/
def spaceFree (w : String) : Prop := ' ' ∉ w.data

instance (w : String) : Decidable (spaceFree w) := by
  unfold spaceFree; infer_instance

/-! ### itertools.permutations

`picks l` lists, in input order, every way of choosing one element of `l`
together with the remaining elements (relative order preserved); iterating
this choice gives exactly the enumeration order of Python's
`itertools.permutations`. -/

def picks {α : Type} : List α → List (α × List α)
  | [] => []
  | x :: xs => (x, xs) :: (picks xs).map (fun pr => (pr.1, x :: pr.2))

/-- `concatMap f l` is the concatenation of `f x` over `x ∈ l` (the shape of
a Python nested-loop generator). -/
def concatMap {α β : Type} (f : α → List β) : List α → List β
  | [] => []
  | x :: xs => f x ++ concatMap f xs

/-- Permutation enumeration with an explicit length fuel. -/
def permsAux {α : Type} : Nat → List α → List (List α)
  | 0, _ => [[]]
  | n + 1, l => concatMap (fun pr => (permsAux n pr.2).map (fun q => pr.1 :: q)) (picks l)

/-- `itertools.permutations l` (full-length permutations, in Python's order). -/
def pyPermutations {α : Type} (l : List α) : List (List α) :=
  permsAux l.length l

/-! ### src/validator.py — MnemonicHandler

The BIP-39 word list is loaded from an external package at runtime; it is
modelled as a membership parameter `wl : String → Bool`.  Seed generation
(`Bip39SeedGenerator(...).Generate()` succeeding or raising) is likewise an
external checksum service, modelled as `seedOk : String → Bool`. -/

/-- `MnemonicHandler.validate_word_list`: every word, normalized with
`word.lower().strip()`, must be in the word list. -/
def validate_word_list (wl : String → Bool) (words : List String) : Bool :=
  words.all (fun w => wl (pyNormWord w))

/-- `MnemonicHandler.construct_mnemonic`: combine permuted and fixed words
into the full 24-word mnemonic; `ValueError`s become `Except.error`. -/
def construct_mnemonic (permuted_words fixed_words : List String) :
    Except String String :=
  if permuted_words.length ≠ 10 then .error "Expected 10 permuted words"
  else if fixed_words.length ≠ 14 then .error "Expected 14 fixed words"
  else
    let permuted_clean := permuted_words.map pyCleanWord
    let fixed_clean := fixed_words.map pyCleanWord
    if permuted_clean.length ≠ 10 then .error "Invalid permuted words after cleaning"
    else if fixed_clean.length ≠ 14 then .error "Invalid fixed words after cleaning"
    else
      let all_words := permuted_clean ++ fixed_clean
      if all_words.length ≠ 24 then .error "Invalid total words"
      else .ok (joinWords all_words)

/-- `MnemonicHandler.validate_checksum`: total Boolean check — the source
wraps everything in `try/except` blocks that return `False`, so no
exception reaches the caller.  The final seed-generation attempt is the
external checksum service `seedOk`. -/
def validate_checksum (wl seedOk : String → Bool) (mnemonic : String) : Bool :=
  let words := pySplit mnemonic
  if words.length ≠ 24 then false
  else if !(validate_word_list wl words) then false
  else seedOk mnemonic

/-! ### src/wallet.py — WalletDeriver

`DERIVATION_PATHS` is a class attribute mutated in place by `__init__`, so
it is modelled as explicit state: each constructor call receives the
current class-level list and returns the (possibly extended) list, which is
also what every instance observes afterwards.  The composite
`Bip39SeedGenerator / Bip44 / Account` derivation is the external HD
key-derivation service, modelled as
`derive_raw : String → String → Option String` (mnemonic, path ↦ address or
failure). -/

/-- The class-level `WalletDeriver.DERIVATION_PATHS` literal. -/
def DERIVATION_PATHS : List String :=
  ["m/44\x27/60\x27/0\x27/0/0",
   "m/44\x27/60\x27/0\x27",
   "m/44\x27/60\x27/0\x27/0",
   "m/44\x27/60\x27/0/0",
   "m/44\x27/60\x27/0/0/0",
   "m/44\x27/60\x27/0",
   "m/44\x27/60\x27",
   "m/0\x27/0\x27/0\x27",
   "m/0/0/0"]

/-- `WalletDeriver.__init__`'s effect on the class-level path list:
`if custom_path and custom_path not in self.DERIVATION_PATHS:
self.DERIVATION_PATHS.insert(0, custom_path)`.  The result is the new
class attribute, observed by this and by every other instance. -/
def wallet_deriver_init_paths (classPaths : List String) (custom : Option String) :
    List String :=
  match custom with
  | none => classPaths
  | some c => if c ≠ "" ∧ c ∉ classPaths then c :: classPaths else classPaths

/-- `WalletDeriver.derive_address`: returns the lowercased derived address,
or `""` when derivation fails (all exceptions are caught and `""` is
returned). -/
def derive_address (derive_raw : String → String → Option String)
    (mnemonic path : String) : String :=
  match derive_raw mnemonic path with
  | some a => pyLower a
  | none => ""

/-- The `for path in self.DERIVATION_PATHS[1:]` loop of
`try_all_derivation_paths`.  The second component models the Python local
`derived_address`, reassigned on every iteration (also when derivation
fails and the iteration is skipped with `continue`). -/
def try_paths_loop (derive_raw : String → String → Option String)
    (target mnemonic : String) : List String → String → Option String × String
  | [], last => (none, last)
  | p :: rest, _ =>
    let d := derive_address derive_raw mnemonic p
    if d = "" then try_paths_loop derive_raw target mnemonic rest d
    else if d = target then (some p, d)
    else try_paths_loop derive_raw target mnemonic rest d

/-- `WalletDeriver.try_all_derivation_paths`: first the head path (the
default/custom path), then the remaining paths; returns
`(working_path?, derived_address)`.  The source indexes `DERIVATION_PATHS[0]`,
which never fails because the class list is never empty; the `[]` branch
here is that unreachable case. -/
def try_all_derivation_paths (derive_raw : String → String → Option String)
    (target mnemonic : String) (paths : List String) : Option String × String :=
  match paths with
  | [] => (none, "")
  | p0 :: rest =>
    let d0 := derive_address derive_raw mnemonic p0
    if d0 ≠ "" ∧ d0 = target then (some p0, d0)
    else try_paths_loop derive_raw target mnemonic rest d0

/-! ### src/recovery.py — WalletRecovery

The instance attribute `tried_permutations` is modelled as an explicit
`List String` of recorded signatures (`" ".join(perm)` strings); CSV audit
writes and logging are I/O effects outside the value-level model. -/

/-- The loop body of `WalletRecovery.generate_permutations` over the
stream of permutations: skip a permutation whose signature is already in
`tried_permutations`, otherwise record its signature and yield it paired
with the next identifier.  Returns the yields and the final
`tried_permutations`. -/
def genPermAux (st : List String) (permId : Nat) :
    List (List String) → List (List String × Nat) × List String
  | [] => ([], st)
  | perm :: rest =>
    let permStr := joinWords perm
    if permStr ∈ st then genPermAux st permId rest
    else
      let res := genPermAux (permStr :: st) (permId + 1) rest
      ((perm, permId) :: res.1, res.2)

/-- `WalletRecovery.generate_permutations`: lowercase the words, abort with
no yields if some word is not in the word list, otherwise stream
`itertools.permutations` with instance-level deduplication. -/
def generate_permutations (wl : String → Bool) (st : List String)
    (words : List String) : List (List String × Nat) × List String :=
  let ws := words.map pyLower
  if validate_word_list wl ws then genPermAux st 0 (pyPermutations ws)
  else ([], st)

/-- `WalletRecovery.process_permutation`: the whole body runs inside
`try/except Exception`, so an error from `construct_mnemonic` is caught
and the candidate is merely rejected (`none`); returns
`some (mnemonic, working_path)` exactly on a full match. -/
def process_permutation (wl seedOk : String → Bool)
    (derive_raw : String → String → Option String)
    (paths : List String) (target : String)
    (permuted_words fixed_words : List String) : Option (String × String) :=
  let permuted := permuted_words.map pyLower
  let fixed := fixed_words.map pyLower
  if !(validate_word_list wl (permuted ++ fixed)) then none
  else
    match construct_mnemonic permuted fixed with
    | .error _ => none
    | .ok mnemonic =>
      if !(validate_checksum wl seedOk mnemonic) then none
      else
        match try_all_derivation_paths derive_raw target mnemonic paths with
        | (some working_path, _) => some (mnemonic, working_path)
        | (none, _) => none

/-- The candidate loop of `WalletRecovery.recover_wallet`: process
candidates in order, stopping at the first match.  The second component
records the identifiers of the candidates actually visited. -/
def scan_loop (wl seedOk : String → Bool)
    (derive_raw : String → String → Option String)
    (paths : List String) (target : String) (fixed_words : List String) :
    List (List String × Nat) → Option (String × String) × List Nat
  | [] => (none, [])
  | (perm, permId) :: rest =>
    match process_permutation wl seedOk derive_raw paths target perm fixed_words with
    | some r => (some r, [permId])
    | none =>
      let res := scan_loop wl seedOk derive_raw paths target fixed_words rest
      (res.1, permId :: res.2)

/-- One wallet entry of the YAML configuration, after loading. -/
structure WalletCfg where
  target_address : String
  fixed_words : List String
  permutable_words : List String
  derivation_path : Option String

/-- Outcome of `recover_wallet`: either one of the early validation
failures (`logger.error` followed by `return None` before any permutation
is generated), or the result of the scan together with the identifiers of
the candidates visited. -/
inductive RecoverOutcome where
  | configError (msg : String)
  | finished (result : Option (String × String)) (visited : List Nat)

/-- The identifiers of candidates visited by a run; a configuration
failure visits none. -/
def visitedIds : RecoverOutcome → List Nat
  | .configError _ => []
  | .finished _ visited => visited

/-- `WalletRecovery.recover_wallet`: validate counts and word-list
membership, construct the deriver (mutating the class-level path list),
then scan all generated permutations.  `classPaths` is the current
class-level `DERIVATION_PATHS`, `st` the instance's `tried_permutations`. -/
def recover_wallet (wl seedOk : String → Bool)
    (derive_raw : String → String → Option String)
    (classPaths : List String) (st : List String) (cfg : WalletCfg) :
    RecoverOutcome :=
  let target := pyLower cfg.target_address
  if cfg.fixed_words.length ≠ 15 then .configError "Expected 15 fixed words"
  else if cfg.permutable_words.length ≠ 9 then .configError "Expected 9 permutable words"
  else if !(validate_word_list wl (cfg.fixed_words ++ cfg.permutable_words)) then
    .configError "Some input words are not valid BIP-39 words"
  else
    let paths := wallet_deriver_init_paths classPaths cfg.derivation_path
    let gen := generate_permutations wl st cfg.permutable_words
    let res := scan_loop wl seedOk derive_raw paths target cfg.fixed_words gen.1
    .finished res.1 res.2

/-! ### src/trial3_generator.py and trial3.py -/

/-- The blank marker of the trial-3 scrambled word list. -/
def BLANK_TOKEN : String := ""

/-- `generate_trial3_word_sets`: validate the scrambled list, then for each
pool candidate (in pool order, normalized with `.lower().strip()`) yield
every permutation of the 8 known words plus that candidate.  The Python
generator's `raise ValueError` becomes `Except.error`; the yielded stream
becomes the returned list.  There is no deduplication in this generator. -/
def generate_trial3_word_sets (scrambled_words replacement_pool : List String) :
    Except String (List (List String)) :=
  if scrambled_words.length ≠ 9 then .error "scrambled_words must have length 9"
  else if BLANK_TOKEN ∉ scrambled_words then
    .error "scrambled_words must contain exactly one blank"
  else if scrambled_words.count BLANK_TOKEN ≠ 1 then
    .error "scrambled_words must contain exactly one blank token"
  else
    let base_words := scrambled_words.filter (fun w => w ≠ BLANK_TOKEN)
    if base_words.length ≠ 8 then
      .error "Expected 8 known scrambled words after removing blank"
    else
      .ok (concatMap
        (fun candidate => pyPermutations (base_words ++ [pyNormWord candidate]))
        replacement_pool)

/-- One trial-3 wallet entry of the YAML configuration. -/
structure Trial3Cfg where
  target_address : String
  fixed_words : List String
  scrambled_words : List String
  replacement_pool : List String
  derivation_path : Option String

/-- The input validation and normalization of `Trial3Recovery.__init__`
(trial3.py lines 55-69); a raised `ValueError` becomes `Except.error`.
On success it returns the normalized fixed, scrambled and pool lists. -/
def trial3_validate (cfg : Trial3Cfg) :
    Except String (List String × List String × List String) :=
  if cfg.fixed_words.length ≠ 15 then
    .error "fixed_words must have 15 words"
  else if cfg.scrambled_words.length ≠ 9 then
    .error "scrambled_words must have 9 entries"
  else if cfg.scrambled_words.count BLANK_TOKEN ≠ 1 then
    .error "scrambled_words must contain exactly one blank token"
  else if cfg.replacement_pool.length ≠ 30 then
    .error "replacement_pool must have 30 candidate words"
  else
    .ok (cfg.fixed_words.map pyNormWord,
         cfg.scrambled_words.map pyNormWord,
         cfg.replacement_pool.map pyNormWord)

/-! ### Lemmas about `picks`, `concatMap` and `permsAux` -/

theorem picks_map_fst {α : Type} (l : List α) : (picks l).map Prod.fst = l := by
  induction l with
  | nil => rfl
  | cons x xs ih =>
    simp only [picks, List.map_cons, List.map_map]
    exact congrArg (x :: ·) ih

theorem mem_picks_perm {α : Type} :
    ∀ {l : List α} {x : α} {r : List α}, (x, r) ∈ picks l → (x :: r).Perm l := by
  intro l
  induction l with
  | nil => intro x r h; simp [picks] at h
  | cons y ys ih =>
    intro x r h
    simp only [picks, List.mem_cons, List.mem_map] at h
    rcases h with h | ⟨pr, hpr, heq⟩
    · rw [Prod.mk.injEq] at h
      obtain ⟨rfl, rfl⟩ := h
      exact List.Perm.refl _
    · obtain ⟨a, b⟩ := pr
      rw [Prod.mk.injEq] at heq
      obtain ⟨rfl, rfl⟩ := heq
      have hab : (a :: b).Perm ys := ih hpr
      exact (List.Perm.swap y a b).trans (hab.cons y)

theorem mem_picks_length {α : Type} {l : List α} {pr : α × List α}
    (hpr : pr ∈ picks l) : pr.2.length + 1 = l.length := by
  have h := (mem_picks_perm hpr).length_eq
  simpa using h

theorem picks_length {α : Type} (l : List α) : (picks l).length = l.length := by
  have := congrArg List.length (picks_map_fst l)
  simpa using this

theorem picks_complete {α : Type} [DecidableEq α] {x : α} :
    ∀ {l : List α}, x ∈ l → (x, l.erase x) ∈ picks l := by
  intro l
  induction l with
  | nil => intro h; simp at h
  | cons y ys ih =>
    intro h
    by_cases hxy : x = y
    · subst hxy
      simp [picks, List.erase_cons_head]
    · have hx : x ∈ ys := by
        rcases List.mem_cons.mp h with h1 | h1
        · exact absurd h1 hxy
        · exact h1
      have hmem := ih hx
      simp only [picks, List.mem_cons, List.mem_map]
      right
      refine ⟨(x, ys.erase x), hmem, ?_⟩
      have hne : ¬(y == x) := by
        simp only [beq_iff_eq]
        exact fun h2 => hxy h2.symm
      rw [List.erase_cons_tail hne]

theorem mem_concatMap {α β : Type} {f : α → List β} {b : β} :
    ∀ {l : List α}, b ∈ concatMap f l ↔ ∃ a ∈ l, b ∈ f a := by
  intro l
  induction l with
  | nil => simp [concatMap]
  | cons x xs ih => simp [concatMap, List.mem_append, ih]

theorem concatMap_length_const {α β : Type} (f : α → List β) (n : Nat) :
    ∀ l : List α, (∀ x ∈ l, (f x).length = n) →
      (concatMap f l).length = l.length * n := by
  intro l
  induction l with
  | nil => intro _; simp [concatMap]
  | cons x xs ih =>
    intro h
    simp only [concatMap, List.length_append, List.length_cons]
    rw [h x (by simp), ih (fun y hy => h y (by simp [hy]))]
    ring

theorem nodup_concatMap {α β : Type} {f : α → List β} :
    ∀ {l : List α}, (∀ x ∈ l, (f x).Nodup) →
      l.Pairwise (fun a b => ∀ p ∈ f a, ∀ q ∈ f b, p ≠ q) →
      (concatMap f l).Nodup := by
  intro l
  induction l with
  | nil => intro _ _; simp [concatMap]
  | cons x xs ih =>
    intro hchunk hpair
    simp only [concatMap]
    rw [List.nodup_append]
    refine ⟨hchunk x (by simp), ih (fun y hy => hchunk y (by simp [hy])) hpair.of_cons, ?_⟩
    intro p hp hp2
    rw [mem_concatMap] at hp2
    obtain ⟨a, ha, hpa⟩ := hp2
    have := (List.pairwise_cons.mp hpair).1 a ha p hp p hpa
    exact this rfl

theorem permsAux_sound {α : Type} :
    ∀ (n : Nat) (l : List α), l.length = n → ∀ p ∈ permsAux n l, p.Perm l := by
  intro n
  induction n with
  | zero =>
    intro l hl p hp
    have hnil : l = [] := List.eq_nil_of_length_eq_zero hl
    subst hnil
    simp only [permsAux, List.mem_singleton] at hp
    subst hp
    exact List.Perm.refl _
  | succ n ih =>
    intro l hl p hp
    simp only [permsAux] at hp
    rw [mem_concatMap] at hp
    obtain ⟨pr, hpr, hp⟩ := hp
    rw [List.mem_map] at hp
    obtain ⟨q, hq, rfl⟩ := hp
    have hperm : (pr.1 :: pr.2).Perm l := mem_picks_perm hpr
    have hlen : pr.2.length = n := by
      have := mem_picks_length hpr
      omega
    exact ((ih pr.2 hlen q hq).cons pr.1).trans hperm

theorem permsAux_complete {α : Type} [DecidableEq α] :
    ∀ (n : Nat) (l : List α), l.length = n → ∀ p : List α, p.Perm l → p ∈ permsAux n l := by
  intro n
  induction n with
  | zero =>
    intro l hl p hp
    have hnil : l = [] := List.eq_nil_of_length_eq_zero hl
    subst hnil
    have : p = [] := hp.eq_nil
    subst this
    simp [permsAux]
  | succ n ih =>
    intro l hl p hp
    cases p with
    | nil =>
      have := hp.length_eq
      rw [hl] at this
      simp at this
    | cons x q =>
      have hx : x ∈ l := hp.mem_iff.mp (List.mem_cons_self x q)
      have hpick := picks_complete hx
      have hq : q.Perm (l.erase x) := by
        have h1 : l.Perm (x :: l.erase x) := List.perm_cons_erase hx
        exact (hp.trans h1).cons_inv
      have hlen : (l.erase x).length = n := by
        rw [List.length_erase_of_mem hx, hl]
        rfl
      have hmem := ih (l.erase x) hlen q hq
      simp only [permsAux]
      rw [mem_concatMap]
      exact ⟨(x, l.erase x), hpick, List.mem_map.mpr ⟨q, hmem, rfl⟩⟩

theorem permsAux_length {α : Type} :
    ∀ (n : Nat) (l : List α), l.length = n → (permsAux n l).length = n.factorial := by
  intro n
  induction n with
  | zero => intro l _; simp [permsAux, Nat.factorial]
  | succ n ih =>
    intro l hl
    simp only [permsAux]
    rw [concatMap_length_const _ n.factorial]
    · rw [picks_length, hl, Nat.factorial_succ]
    · intro pr hpr
      have hlen : pr.2.length = n := by
        have := mem_picks_length hpr
        omega
      simp [ih pr.2 hlen]

theorem permsAux_nodup {α : Type} :
    ∀ (n : Nat) (l : List α), l.length = n → l.Nodup → (permsAux n l).Nodup := by
  intro n
  induction n with
  | zero => intro l _ _; simp [permsAux]
  | succ n ih =>
    intro l hl hnd
    simp only [permsAux]
    apply nodup_concatMap
    · intro pr hpr
      apply List.Nodup.map
      · intro a b hab
        injection hab
      · have hperm : (pr.1 :: pr.2).Perm l := mem_picks_perm hpr
        have hndc : (pr.1 :: pr.2).Nodup := hperm.nodup_iff.mpr hnd
        have hlen : pr.2.length = n := by
          have := mem_picks_length hpr
          omega
        exact ih pr.2 hlen hndc.of_cons
    · have hfst : (picks l).Pairwise (fun a b => a.1 ≠ b.1) := by
        have hmap : ((picks l).map Prod.fst).Nodup := by
          rw [picks_map_fst]
          exact hnd
        exact List.pairwise_map.mp hmap
      refine hfst.imp ?_
      intro a b hne p hp q hq
      rw [List.mem_map] at hp hq
      obtain ⟨p2, _, rfl⟩ := hp
      obtain ⟨q2, _, rfl⟩ := hq
      intro hcon
      injection hcon with h1 _
      exact hne h1

theorem pyPermutations_sound {α : Type} {l p : List α}
    (hp : p ∈ pyPermutations l) : p.Perm l :=
  permsAux_sound l.length l rfl p hp

theorem pyPermutations_complete {α : Type} [DecidableEq α] {l p : List α}
    (hp : p.Perm l) : p ∈ pyPermutations l :=
  permsAux_complete l.length l rfl p hp

theorem pyPermutations_length {α : Type} (l : List α) :
    (pyPermutations l).length = l.length.factorial :=
  permsAux_length l.length l rfl

theorem pyPermutations_nodup {α : Type} {l : List α} (h : l.Nodup) :
    (pyPermutations l).Nodup :=
  permsAux_nodup l.length l rfl h

theorem self_mem_pyPermutations {α : Type} [DecidableEq α] (l : List α) :
    l ∈ pyPermutations l :=
  pyPermutations_complete (List.Perm.refl l)

/-! ### Lemmas about `joinWords` -/

theorem joinWords_cons2 (w v : String) (rest : List String) :
    joinWords (w :: v :: rest) = w ++ " " ++ joinWords (v :: rest) := rfl

theorem string_data_append (s t : String) : (s ++ t).data = s.data ++ t.data := rfl

theorem joinWords_data : ∀ l : List String,
    (joinWords l).data = joinData (l.map String.data)
  | [] => rfl
  | [_] => rfl
  | w :: v :: rest => by
    have ih := joinWords_data (v :: rest)
    show (w ++ " " ++ joinWords (v :: rest)).data
      = w.data ++ ' ' :: joinData ((v :: rest).map String.data)
    rw [string_data_append, string_data_append, ih]
    simp

theorem sep_split : ∀ (a : List Char), ∀ {b x y : List Char}, ' ' ∉ a → ' ' ∉ b →
    a ++ ' ' :: x = b ++ ' ' :: y → a = b ∧ x = y
  | [], b, x, y, _, hb, h => by
    cases b with
    | nil =>
      simp only [List.nil_append] at h
      injection h with _ h2
      exact ⟨rfl, h2⟩
    | cons c bs =>
      simp only [List.nil_append, List.cons_append] at h
      injection h with h1 _
      subst h1
      exact absurd (List.mem_cons_self _ _) hb
  | c :: as, b, x, y, ha, hb, h => by
    cases b with
    | nil =>
      simp only [List.cons_append, List.nil_append] at h
      injection h with h1 _
      subst h1
      exact absurd (List.mem_cons_self _ _) ha
    | cons d bs =>
      simp only [List.cons_append] at h
      injection h with h1 h2
      subst h1
      have ha2 : ' ' ∉ as := fun hm => ha (List.mem_cons_of_mem _ hm)
      have hb2 : ' ' ∉ bs := fun hm => hb (List.mem_cons_of_mem _ hm)
      obtain ⟨hab, hxy⟩ := sep_split as ha2 hb2 h2
      exact ⟨by rw [hab], hxy⟩

theorem joinData_inj : ∀ (l1 l2 : List (List Char)),
    (∀ w ∈ l1, ' ' ∉ w) → (∀ w ∈ l2, ' ' ∉ w) →
    l1.length = l2.length → joinData l1 = joinData l2 → l1 = l2
  | [], [], _, _, _, _ => rfl
  | [], _ :: _, _, _, hlen, _ => by simp at hlen
  | _ :: _, [], _, _, hlen, _ => by simp at hlen
  | [w1], [w2], _, _, _, h => by
    simp only [joinData] at h
    rw [h]
  | [_], _ :: _ :: _, _, _, hlen, _ => by simp at hlen
  | _ :: _ :: _, [_], _, _, hlen, _ => by simp at hlen
  | w1 :: v1 :: r1, w2 :: v2 :: r2, h1, h2, hlen, h => by
    simp only [joinData] at h
    obtain ⟨hw, ht⟩ := sep_split w1 (h1 w1 (by simp)) (h2 w2 (by simp)) h
    have hrest := joinData_inj (v1 :: r1) (v2 :: r2)
      (fun w hw2 => h1 w (by simp [hw2])) (fun w hw2 => h2 w (by simp [hw2]))
      (by simpa using hlen) ht
    rw [hw, hrest]

theorem stringData_injective : Function.Injective String.data := by
  intro a b h
  exact String.ext h

theorem joinWords_inj {a b : List String} (ha : ∀ w ∈ a, spaceFree w)
    (hb : ∀ w ∈ b, spaceFree w) (hlen : a.length = b.length)
    (h : joinWords a = joinWords b) : a = b := by
  have hdata : joinData (a.map String.data) = joinData (b.map String.data) := by
    rw [← joinWords_data, ← joinWords_data, h]
  have hmap := joinData_inj (a.map String.data) (b.map String.data)
    (by
      intro w hw
      rw [List.mem_map] at hw
      obtain ⟨w0, hw0, rfl⟩ := hw
      exact ha w0 hw0)
    (by
      intro w hw
      rw [List.mem_map] at hw
      obtain ⟨w0, hw0, rfl⟩ := hw
      exact hb w0 hw0)
    (by simp [hlen]) hdata
  exact List.map_injective_iff.mpr stringData_injective hmap

/-! ### Lemmas about the deduplicating yield loop `genPermAux` -/

theorem genPermAux_st_subset :
    ∀ (perms : List (List String)) (st : List String) (permId : Nat),
      st ⊆ (genPermAux st permId perms).2 := by
  intro perms
  induction perms with
  | nil => intro st n a ha; exact ha
  | cons p rest ih =>
    intro st n
    simp only [genPermAux]
    by_cases hmem : joinWords p ∈ st
    · simp only [if_pos hmem]
      exact ih st n
    · simp only [if_neg hmem]
      intro a ha
      exact ih _ _ (List.mem_cons_of_mem _ ha)

theorem genPermAux_records :
    ∀ (perms : List (List String)) (st : List String) (permId : Nat),
      ∀ p ∈ perms, joinWords p ∈ (genPermAux st permId perms).2 := by
  intro perms
  induction perms with
  | nil => intro st n p hp; simp at hp
  | cons q rest ih =>
    intro st n p hp
    simp only [genPermAux]
    by_cases hmem : joinWords q ∈ st
    · simp only [if_pos hmem]
      rcases List.mem_cons.mp hp with rfl | hp2
      · exact genPermAux_st_subset rest st n hmem
      · exact ih st n p hp2
    · simp only [if_neg hmem]
      rcases List.mem_cons.mp hp with rfl | hp2
      · exact genPermAux_st_subset rest _ _ (List.mem_cons_self _ _)
      · exact ih _ _ p hp2

theorem genPermAux_skip_all :
    ∀ (perms : List (List String)) (st : List String) (permId : Nat),
      (∀ p ∈ perms, joinWords p ∈ st) → genPermAux st permId perms = ([], st) := by
  intro perms
  induction perms with
  | nil => intro st n _; rfl
  | cons q rest ih =>
    intro st n h
    simp only [genPermAux, if_pos (h q (List.mem_cons_self _ _))]
    exact ih st n (fun p hp => h p (List.mem_cons_of_mem _ hp))

theorem genPermAux_no_skip :
    ∀ (perms : List (List String)) (permId : Nat) (st : List String),
      (∀ p ∈ perms, joinWords p ∉ st) →
      perms.Pairwise (fun a b => joinWords a ≠ joinWords b) →
      (genPermAux st permId perms).1.map Prod.fst = perms ∧
        (genPermAux st permId perms).1.map Prod.snd = List.range' permId perms.length := by
  intro perms
  induction perms with
  | nil => intro n st _ _; exact ⟨rfl, rfl⟩
  | cons p rest ih =>
    intro n st hst hpair
    have hp : joinWords p ∉ st := hst p (List.mem_cons_self _ _)
    simp only [genPermAux, if_neg hp]
    have hst2 : ∀ q ∈ rest, joinWords q ∉ joinWords p :: st := by
      intro q hq
      rw [List.mem_cons]
      push_neg
      refine ⟨fun hcon => ?_, hst q (List.mem_cons_of_mem _ hq)⟩
      exact (List.pairwise_cons.mp hpair).1 q hq hcon.symm
    obtain ⟨ih1, ih2⟩ := ih (n + 1) (joinWords p :: st) hst2 (List.pairwise_cons.mp hpair).2
    constructor
    · simp only [List.map_cons, ih1]
    · simp only [List.map_cons, ih2, List.length_cons, List.range']

theorem genPermAux_yield_joins :
    ∀ (perms : List (List String)) (st : List String) (permId : Nat),
      ((genPermAux st permId perms).1.map (fun pr => joinWords pr.1)).Nodup ∧
        ∀ pr ∈ (genPermAux st permId perms).1, joinWords pr.1 ∉ st := by
  intro perms
  induction perms with
  | nil =>
    intro st n
    refine ⟨by simp [genPermAux], ?_⟩
    intro pr hpr
    simp [genPermAux] at hpr
  | cons q rest ih =>
    intro st n
    simp only [genPermAux]
    by_cases hmem : joinWords q ∈ st
    · simp only [if_pos hmem]
      exact ih st n
    · simp only [if_neg hmem]
      obtain ⟨ihnd, ihst⟩ := ih (joinWords q :: st) (n + 1)
      constructor
      · simp only [List.map_cons, List.nodup_cons]
        refine ⟨?_, ihnd⟩
        intro hcon
        rw [List.mem_map] at hcon
        obtain ⟨pr, hpr, hj⟩ := hcon
        exact (ihst pr hpr) (hj ▸ List.mem_cons_self _ _)
      · intro pr hpr
        rcases List.mem_cons.mp hpr with rfl | hpr2
        · exact hmem
        · intro hcon
          exact (ihst pr hpr2) (List.mem_cons_of_mem _ hcon)

/-! ### Lemmas about the multi-path address matcher -/

theorem getLastD_map {α β : Type} (f : α → β) :
    ∀ (l : List α) (d : α), (l.map f).getLastD (f d) = f (l.getLastD d) := by
  intro l
  induction l with
  | nil => intro d; rfl
  | cons x xs ih =>
    intro d
    simp only [List.map_cons, List.getLastD_cons]
    exact ih x

theorem try_paths_loop_no_match (derive_raw : String → String → Option String)
    (target mnemonic : String) :
    ∀ (rest : List String) (last : String),
      (∀ q ∈ rest, derive_address derive_raw mnemonic q = "" ∨
        derive_address derive_raw mnemonic q ≠ target) →
      try_paths_loop derive_raw target mnemonic rest last =
        (none, (rest.map (derive_address derive_raw mnemonic)).getLastD last) := by
  intro rest
  induction rest with
  | nil => intro last _; rfl
  | cons q qs ih =>
    intro last h
    have hqs : ∀ p ∈ qs, derive_address derive_raw mnemonic p = "" ∨
        derive_address derive_raw mnemonic p ≠ target :=
      fun p hp => h p (List.mem_cons_of_mem _ hp)
    simp only [try_paths_loop, List.map_cons, List.getLastD_cons]
    by_cases hd : derive_address derive_raw mnemonic q = ""
    · rw [if_pos hd, ih _ hqs]
    · have hdt : derive_address derive_raw mnemonic q ≠ target := by
        rcases h q (List.mem_cons_self _ _) with h1 | h1
        · exact absurd h1 hd
        · exact h1
      rw [if_neg hd, if_neg hdt, ih _ hqs]

theorem try_paths_loop_first_match (derive_raw : String → String → Option String)
    (target mnemonic : String) :
    ∀ (pre : List String) (p : String) (post : List String) (last : String),
      (∀ q ∈ pre, derive_address derive_raw mnemonic q = "" ∨
        derive_address derive_raw mnemonic q ≠ target) →
      derive_address derive_raw mnemonic p ≠ "" →
      derive_address derive_raw mnemonic p = target →
      try_paths_loop derive_raw target mnemonic (pre ++ p :: post) last =
        (some p, derive_address derive_raw mnemonic p) := by
  intro pre
  induction pre with
  | nil =>
    intro p post last _ hne heq
    simp only [List.nil_append, try_paths_loop]
    rw [if_neg hne, if_pos heq]
  | cons q qs ih =>
    intro p post last h hne heq
    have hqs : ∀ r ∈ qs, derive_address derive_raw mnemonic r = "" ∨
        derive_address derive_raw mnemonic r ≠ target :=
      fun r hr => h r (List.mem_cons_of_mem _ hr)
    simp only [List.cons_append, try_paths_loop]
    by_cases hd : derive_address derive_raw mnemonic q = ""
    · rw [if_pos hd]
      exact ih p post _ hqs hne heq
    · have hdt : derive_address derive_raw mnemonic q ≠ target := by
        rcases h q (List.mem_cons_self _ _) with h1 | h1
        · exact absurd h1 hd
        · exact h1
      rw [if_neg hd, if_neg hdt]
      exact ih p post _ hqs hne heq

/-! ### Lemmas about the trial-3 generator -/

theorem length_filter_ne {α : Type} [DecidableEq α] (a : α) :
    ∀ l : List α, (l.filter (fun w => w ≠ a)).length + l.count a = l.length := by
  intro l
  induction l with
  | nil => rfl
  | cons x xs ih =>
    by_cases hx : x = a
    · subst hx
      simp [List.filter_cons, List.count_cons] at ih ⊢
      omega
    · simp [List.filter_cons, List.count_cons, hx] at ih ⊢
      omega

theorem generate_trial3_eq (scrambled_words replacement_pool : List String)
    (h9 : scrambled_words.length = 9)
    (hc : scrambled_words.count BLANK_TOKEN = 1) :
    generate_trial3_word_sets scrambled_words replacement_pool =
      .ok (concatMap
        (fun candidate =>
          pyPermutations
            ((scrambled_words.filter (fun w => w ≠ BLANK_TOKEN)) ++ [pyNormWord candidate]))
        replacement_pool) := by
  have hmem : BLANK_TOKEN ∈ scrambled_words := by
    refine List.count_pos_iff.mp ?_
    omega
  have h8 : (scrambled_words.filter (fun w => w ≠ BLANK_TOKEN)).length = 8 := by
    have := length_filter_ne BLANK_TOKEN scrambled_words
    omega
  unfold generate_trial3_word_sets
  rw [if_neg (by omega), if_neg (not_not_intro hmem), if_neg (by omega), if_neg (by omega)]

/-! ### Claims -/

theorem not_nodup_append_of_mem_both {α : Type} {l t : List α} {x : α}
    (hx : x ∈ l) (hx2 : x ∈ t) : ¬ (l ++ t).Nodup := by
  intro h
  rw [List.nodup_append] at h
  exact h.2.2 hx hx2

/-- Claim C8: for every input string, the checksum-validity check is a
total Boolean function (the source catches every exception and returns
`False`, so nothing is raised to the caller), and it fails closed: it
returns `false` whenever the input does not split into exactly 24 words
or contains a word absent from the word list. -/
theorem c8_checksum_fails_closed (wl seedOk : String → Bool) (mnemonic : String)
    (h : (pySplit mnemonic).length ≠ 24 ∨
      ∃ w ∈ pySplit mnemonic, wl (pyNormWord w) = false) :
    validate_checksum wl seedOk mnemonic = false := by
  simp only [validate_checksum]
  rcases h with h | ⟨w, hw, hwl⟩
  · rw [if_pos h]
  · by_cases h24 : (pySplit mnemonic).length ≠ 24
    · rw [if_pos h24]
    · have hv : validate_word_list wl (pySplit mnemonic) = false := by
        cases hb : validate_word_list wl (pySplit mnemonic) with
        | false => rfl
        | true =>
          exfalso
          simp only [validate_word_list, List.all_eq_true] at hb
          have := hb w hw
          rw [hwl] at this
          exact Bool.false_ne_true this
      rw [if_neg h24, if_pos (by rw [hv]; rfl)]

/-- Witness for C8: a concrete malformed input with two words. -/
theorem c8_checksum_fails_closed_witness :
    ((pySplit "hello world").length ≠ 24 ∨
      ∃ w ∈ pySplit "hello world", (fun _ : String => true) (pyNormWord w) = false) ∧
    validate_checksum (fun _ => true) (fun _ => true) "hello world" = false :=
  ⟨Or.inl (by decide),
   c8_checksum_fails_closed (fun _ => true) (fun _ => true) "hello world"
     (Or.inl (by decide))⟩

/-- Claim C10: the deduplication state lives on the `WalletRecovery`
instance, not on the generator: a second `generate_permutations` call
with the same word list, starting from the tried-permutations set left
behind by a complete first pass on the fresh instance, yields zero
permutations. -/
theorem c10_dedup_state_instance_level (wl : String → Bool) (words : List String) :
    (generate_permutations wl (generate_permutations wl [] words).2 words).1 = [] := by
  by_cases hv : validate_word_list wl (words.map pyLower) = true
  · have hst : (generate_permutations wl [] words).2
        = (genPermAux [] 0 (pyPermutations (words.map pyLower))).2 := by
      simp only [generate_permutations, if_pos hv]
    have hrec : ∀ p ∈ pyPermutations (words.map pyLower),
        joinWords p ∈ (genPermAux [] 0 (pyPermutations (words.map pyLower))).2 :=
      genPermAux_records _ [] 0
    simp only [generate_permutations, if_pos hv, hst]
    rw [genPermAux_skip_all _ _ 0 hrec]
  · simp only [generate_permutations, if_neg hv]

/-- Claim C5 (amended): in direct mode the instance-level signature set
makes the yields of a fresh `generate_permutations` run pairwise distinct,
even when the input words contain duplicates.  The blank-substitution
generator has no such deduplication, and the counterexample shows it can
yield the same sequence twice. -/
theorem c5_direct_mode_distinct (wl : String → Bool) (words : List String) :
    ((generate_permutations wl [] words).1.map Prod.fst).Nodup := by
  by_cases hv : validate_word_list wl (words.map pyLower) = true
  · simp only [generate_permutations, if_pos hv]
    obtain ⟨hnd, _⟩ := genPermAux_yield_joins (pyPermutations (words.map pyLower)) [] 0
    refine List.Nodup.of_map joinWords ?_
    rw [List.map_map]
    exact hnd
  · simp only [generate_permutations, if_neg hv]
    simp

/-- Claim C5 counterexample: in blank-substitution mode a replacement pool
containing the same candidate twice makes `generate_trial3_word_sets`
yield the same 9-word sequence more than once — the yields are not
pairwise distinct, so the claimed deduplication does not exist in this
mode. -/
theorem c5_blank_mode_duplicates_counterexample :
    ∃ out, generate_trial3_word_sets
        ["w1", "w2", "w3", "w4", "w5", "w6", "w7", "w8", ""] ["x", "x"] = .ok out ∧
      ¬ out.Nodup := by
  refine ⟨_, generate_trial3_eq _ _ (by decide) (by decide), ?_⟩
  exact not_nodup_append_of_mem_both (self_mem_pyPermutations _)
    (List.mem_append.mpr (Or.inl (self_mem_pyPermutations _)))

/-- Claim C4 counterexample: `DERIVATION_PATHS` is a class attribute
mutated in place, so after one `WalletDeriver` is constructed with a
custom path, a second deriver constructed with no custom path observes
the mutated list, not the unchanged default list the claim promises. -/
theorem c4_class_paths_counterexample :
    wallet_deriver_init_paths DERIVATION_PATHS (some "m/1\x27/2\x27/3\x27")
      = "m/1\x27/2\x27/3\x27" :: DERIVATION_PATHS ∧
    wallet_deriver_init_paths ("m/1\x27/2\x27/3\x27" :: DERIVATION_PATHS) none
      ≠ DERIVATION_PATHS := by
  constructor
  · decide
  · decide

/-- Claim C4 (amended): inserting a not-already-present, non-empty custom
path at construction prepends it to the class-level list shared by all
instances: the mutated list is what any deriver constructed afterwards
observes, and it differs from the pre-mutation list — the mutation is
process-wide, not scoped to the one constructed instance. -/
theorem c4_custom_path_mutates_class_list (classPaths : List String) (c : String)
    (hne : c ≠ "") (hnotin : c ∉ classPaths) :
    wallet_deriver_init_paths classPaths (some c) = c :: classPaths ∧
    wallet_deriver_init_paths (c :: classPaths) none = c :: classPaths ∧
    wallet_deriver_init_paths (c :: classPaths) none ≠ classPaths := by
  refine ⟨?_, rfl, ?_⟩
  · simp only [wallet_deriver_init_paths]
    rw [if_pos ⟨hne, hnotin⟩]
  · simp only [wallet_deriver_init_paths]
    intro h
    have hlen := congrArg List.length h
    simp only [List.length_cons] at hlen
    omega

/-- Witness for the amended C4 at a concrete custom path. -/
theorem c4_custom_path_mutates_class_list_witness :
    ("m/9\x27/9\x27" ≠ "" ∧ "m/9\x27/9\x27" ∉ DERIVATION_PATHS) ∧
    (wallet_deriver_init_paths DERIVATION_PATHS (some "m/9\x27/9\x27")
        = "m/9\x27/9\x27" :: DERIVATION_PATHS ∧
      wallet_deriver_init_paths ("m/9\x27/9\x27" :: DERIVATION_PATHS) none
        = "m/9\x27/9\x27" :: DERIVATION_PATHS ∧
      wallet_deriver_init_paths ("m/9\x27/9\x27" :: DERIVATION_PATHS) none
        ≠ DERIVATION_PATHS) :=
  ⟨⟨by decide, by decide⟩,
   c4_custom_path_mutates_class_list DERIVATION_PATHS "m/9\x27/9\x27"
     (by decide) (by decide)⟩

/-- Claim C3 counterexample: with a target matching no path, the first
path deriving a non-matching address "0xaa" and the second path failing
outright, the matcher returns `(none, "")`: the later failure overwrites
the earlier successfully derived address in the returned diagnostic,
contrary to the claim. -/
theorem c3_last_derived_counterexample :
    derive_address (fun _ p => if p = "a" then some "0xAA" else none) "m" "a" = "0xaa" ∧
    derive_address (fun _ p => if p = "a" then some "0xAA" else none) "m" "b" = "" ∧
    try_all_derivation_paths (fun _ p => if p = "a" then some "0xAA" else none)
      "0xff" "m" ["a", "b"] = (none, "") ∧
    ("" : String) ≠ "0xaa" := by
  refine ⟨by decide, by decide, by decide, by decide⟩

/-- Claim C3 (amended): when no path matches, the matcher returns `none`
together with the `derive_address` result for the **last attempted** path
(`""` when that final attempt failed outright) — the Python local
`derived_address` is reassigned on every loop iteration, so the last
successfully derived address is not preserved. -/
theorem c3_no_match_returns_last_attempt
    (derive_raw : String → String → Option String) (target mnemonic p0 : String)
    (rest : List String)
    (h0 : derive_address derive_raw mnemonic p0 = "" ∨
      derive_address derive_raw mnemonic p0 ≠ target)
    (hrest : ∀ q ∈ rest, derive_address derive_raw mnemonic q = "" ∨
      derive_address derive_raw mnemonic q ≠ target) :
    try_all_derivation_paths derive_raw target mnemonic (p0 :: rest) =
      (none, derive_address derive_raw mnemonic (rest.getLastD p0)) := by
  have hnc : ¬ (derive_address derive_raw mnemonic p0 ≠ "" ∧
      derive_address derive_raw mnemonic p0 = target) := by
    rcases h0 with h1 | h1
    · exact fun hc => hc.1 h1
    · exact fun hc => h1 hc.2
  simp only [try_all_derivation_paths]
  rw [if_neg hnc, try_paths_loop_no_match _ _ _ _ _ hrest, getLastD_map]

/-- Witness for the amended C3: path "a" derives a non-matching address,
path "b" (the last attempted) fails, and the returned diagnostic is the
last attempt's result. -/
theorem c3_no_match_returns_last_attempt_witness :
    try_all_derivation_paths (fun _ p => if p = "a" then some "0xBB" else none)
      "0xff" "m" ("a" :: ["b"]) =
      (none, derive_address (fun _ p => if p = "a" then some "0xBB" else none) "m"
        (["b"].getLastD "a")) :=
  c3_no_match_returns_last_attempt (fun _ p => if p = "a" then some "0xBB" else none)
    "0xff" "m" "a" ["b"] (by decide) (by decide)

/-- Claim C6: the matcher walks the deriver's path list in priority order,
treats a failed derivation (empty result) or a non-matching address on an
earlier path as a non-match for that path only, returns the first
matching (path, address) pair, and its result does not depend on the paths
after the match (`post` is universally quantified: short-circuit).  The
comparison is case-insensitive because `derive_address` lowercases the
derived address and the constructor lowercases the target.  The second
conjunct records that a new non-empty custom path is placed at the very
front of the list at construction, so it is tried first. -/
theorem c6_first_match_short_circuit
    (derive_raw : String → String → Option String) (target mnemonic p : String)
    (pre post : List String)
    (hpre : ∀ q ∈ pre, derive_address derive_raw mnemonic q = "" ∨
      derive_address derive_raw mnemonic q ≠ target)
    (hne : derive_address derive_raw mnemonic p ≠ "")
    (heq : derive_address derive_raw mnemonic p = target) :
    try_all_derivation_paths derive_raw target mnemonic (pre ++ p :: post) =
      (some p, derive_address derive_raw mnemonic p) ∧
    ∀ c ps, c ≠ "" → c ∉ ps →
      wallet_deriver_init_paths ps (some c) = c :: ps := by
  constructor
  · cases pre with
    | nil =>
      simp only [List.nil_append, try_all_derivation_paths]
      rw [if_pos ⟨hne, heq⟩]
    | cons q qs =>
      have hq := hpre q (List.mem_cons_self _ _)
      have hnc : ¬ (derive_address derive_raw mnemonic q ≠ "" ∧
          derive_address derive_raw mnemonic q = target) := by
        rcases hq with h1 | h1
        · exact fun hc => hc.1 h1
        · exact fun hc => h1 hc.2
      simp only [List.cons_append, try_all_derivation_paths]
      rw [if_neg hnc]
      exact try_paths_loop_first_match _ _ _ qs p post _
        (fun r hr => hpre r (List.mem_cons_of_mem _ hr)) hne heq
  · intro c ps hc hcps
    simp only [wallet_deriver_init_paths]
    rw [if_pos ⟨hc, hcps⟩]

/-- Witness for C6: the first path fails, the second derives the target
(case-insensitively), a third path sits after the match. -/
theorem c6_first_match_short_circuit_witness :
    try_all_derivation_paths (fun _ p => if p = "good" then some "0xCC" else none)
      "0xcc" "m" (["bad"] ++ "good" :: ["later"]) =
      (some "good",
        derive_address (fun _ p => if p = "good" then some "0xCC" else none) "m" "good") ∧
    ∀ c ps, c ≠ "" → c ∉ ps →
      wallet_deriver_init_paths ps (some c) = c :: ps :=
  c6_first_match_short_circuit (fun _ p => if p = "good" then some "0xCC" else none)
    "0xcc" "m" "good" ["bad"] ["later"] (by decide) (by decide) (by decide)

/-- Claim C7: a configuration whose fixed-word list does not have the 15
words both modes require fails before any permutation is generated:
`recover_wallet` stops at its early validation (`logger.error` + `return
None`) with zero candidates visited, so no filter or derivation work is
performed, and `Trial3Recovery.__init__` raises a `ValueError`. -/
theorem c7_config_error_before_generation (wl seedOk : String → Bool)
    (derive_raw : String → String → Option String)
    (classPaths st : List String) (cfg : WalletCfg) (t3cfg : Trial3Cfg)
    (h : cfg.fixed_words.length ≠ 15) (h3 : t3cfg.fixed_words.length ≠ 15) :
    recover_wallet wl seedOk derive_raw classPaths st cfg =
      .configError "Expected 15 fixed words" ∧
    visitedIds (recover_wallet wl seedOk derive_raw classPaths st cfg) = [] ∧
    trial3_validate t3cfg = .error "fixed_words must have 15 words" := by
  have h1 : recover_wallet wl seedOk derive_raw classPaths st cfg =
      .configError "Expected 15 fixed words" := by
    simp only [recover_wallet]
    rw [if_pos h]
  refine ⟨h1, by rw [h1]; rfl, ?_⟩
  simp only [trial3_validate]
  rw [if_pos h3]

/-- Witness for C7 at a concrete configuration with 14 fixed words. -/
theorem c7_config_error_before_generation_witness :
    recover_wallet (fun _ => true) (fun _ => true) (fun _ _ => none) DERIVATION_PATHS []
      ⟨"0xabc", List.replicate 14 "abandon", List.replicate 9 "ability", none⟩ =
      .configError "Expected 15 fixed words" ∧
    visitedIds (recover_wallet (fun _ => true) (fun _ => true) (fun _ _ => none)
      DERIVATION_PATHS []
      ⟨"0xabc", List.replicate 14 "abandon", List.replicate 9 "ability", none⟩) = [] ∧
    trial3_validate
      ⟨"0xabc", List.replicate 14 "abandon", List.replicate 9 "ability",
        List.replicate 30 "able", none⟩ = .error "fixed_words must have 15 words" :=
  c7_config_error_before_generation (fun _ => true) (fun _ => true) (fun _ _ => none)
    DERIVATION_PATHS []
    ⟨"0xabc", List.replicate 14 "abandon", List.replicate 9 "ability", none⟩
    ⟨"0xabc", List.replicate 14 "abandon", List.replicate 9 "ability",
      List.replicate 30 "able", none⟩
    (by decide) (by decide)

/-- Claim C2 counterexample: a candidate whose permuted part has 9 words
and whose fixed part has 15 words (exactly what `recover_wallet` feeds the
pipeline) makes `construct_mnemonic` raise, yet `process_permutation`
catches the exception and rejects only that candidate, and the scan
visits the next candidate — the run does not abort fatally. -/
theorem c2_wordcount_not_fatal_counterexample :
    construct_mnemonic (List.replicate 9 "b") (List.replicate 15 "a") =
      .error "Expected 10 permuted words" ∧
    process_permutation (fun _ => true) (fun _ => false) (fun _ _ => none) ["p"]
      "t" (List.replicate 9 "b") (List.replicate 15 "a") = none ∧
    scan_loop (fun _ => true) (fun _ => false) (fun _ _ => none) ["p"] "t"
      (List.replicate 15 "a")
      [(List.replicate 9 "b", 0), (List.replicate 9 "b", 1)] = (none, [0, 1]) := by
  refine ⟨rfl, by decide, by decide⟩

/-- Claim C2 (amended): when the permuted part is not 10 words or the
fixed part is not 14 words, `construct_mnemonic` raises a `ValueError`,
`process_permutation` catches it and rejects only that candidate
(returning `none`), and the scan loop continues with the remaining
candidates instead of aborting. -/
theorem c2_wordcount_rejects_candidate (wl seedOk : String → Bool)
    (derive_raw : String → String → Option String) (paths : List String)
    (target : String) (permuted fixed : List String) (permId : Nat)
    (rest : List (List String × Nat))
    (h : permuted.length ≠ 10 ∨ fixed.length ≠ 14) :
    (∃ e, construct_mnemonic (permuted.map pyLower) (fixed.map pyLower) = .error e) ∧
    process_permutation wl seedOk derive_raw paths target permuted fixed = none ∧
    scan_loop wl seedOk derive_raw paths target fixed ((permuted, permId) :: rest) =
      ((scan_loop wl seedOk derive_raw paths target fixed rest).1,
        permId :: (scan_loop wl seedOk derive_raw paths target fixed rest).2) := by
  have hcon : ∃ e, construct_mnemonic (permuted.map pyLower) (fixed.map pyLower)
      = .error e := by
    simp only [construct_mnemonic, List.length_map]
    rcases h with h1 | h1
    · rw [if_pos h1]
      exact ⟨_, rfl⟩
    · by_cases h2 : permuted.length ≠ 10
      · rw [if_pos h2]
        exact ⟨_, rfl⟩
      · rw [if_neg h2, if_pos h1]
        exact ⟨_, rfl⟩
  obtain ⟨e, he⟩ := hcon
  have hproc : process_permutation wl seedOk derive_raw paths target permuted fixed
      = none := by
    simp only [process_permutation]
    cases hv : validate_word_list wl (permuted.map pyLower ++ fixed.map pyLower) with
    | false => simp [hv]
    | true => simp [hv, he]
  refine ⟨⟨e, he⟩, hproc, ?_⟩
  simp only [scan_loop, hproc]

/-- Claim C1: on a valid blank-substitution input (9 entries, exactly one
blank marker, known words pairwise distinct and distinct from every
normalized pool word, pool of size P), the generator succeeds and yields
exactly P × 9! sequences, each of length 9, iterating pool candidates in
pool order (the `concatMap` over the pool, in order) and, for each
candidate, yielding every permutation of the 8 known words plus that
candidate. -/
theorem c1_blank_generator_count (scrambled_words replacement_pool : List String)
    (h9 : scrambled_words.length = 9)
    (hc : scrambled_words.count BLANK_TOKEN = 1)
    (hnd : (scrambled_words.filter (fun w => w ≠ BLANK_TOKEN)).Nodup)
    (hdisj : ∀ c ∈ replacement_pool,
      pyNormWord c ∉ scrambled_words.filter (fun w => w ≠ BLANK_TOKEN)) :
    ∃ out, generate_trial3_word_sets scrambled_words replacement_pool = .ok out ∧
      out = concatMap
        (fun candidate => pyPermutations
          ((scrambled_words.filter (fun w => w ≠ BLANK_TOKEN)) ++ [pyNormWord candidate]))
        replacement_pool ∧
      out.length = replacement_pool.length * Nat.factorial 9 ∧
      (∀ s ∈ out, s.length = 9) ∧
      (∀ c ∈ replacement_pool, ∀ p : List String,
        p.Perm ((scrambled_words.filter (fun w => w ≠ BLANK_TOKEN)) ++ [pyNormWord c]) →
        p ∈ out) := by
  have h8 : (scrambled_words.filter (fun w => w ≠ BLANK_TOKEN)).length = 8 := by
    have := length_filter_ne BLANK_TOKEN scrambled_words
    omega
  refine ⟨_, generate_trial3_eq _ _ h9 hc, rfl, ?_, ?_, ?_⟩
  · refine concatMap_length_const _ _ _ ?_
    intro c hcmem
    rw [pyPermutations_length, List.length_append, h8]
    rfl
  · intro s hs
    rw [mem_concatMap] at hs
    obtain ⟨c, hcmem, hsc⟩ := hs
    have hlen := (pyPermutations_sound hsc).length_eq
    rw [List.length_append, h8] at hlen
    exact hlen
  · intro c hcmem p hp
    rw [mem_concatMap]
    exact ⟨c, hcmem, pyPermutations_complete hp⟩

/-- Witness for C1: the repository test's small case — 8 known words, one
blank, a pool of two candidates. -/
theorem c1_blank_generator_count_witness :
    ∃ out, generate_trial3_word_sets
        ["w1", "w2", "w3", "w4", "w5", "w6", "w7", "w8", ""] ["rep1", "rep2"] =
        .ok out ∧
      out = concatMap
        (fun candidate => pyPermutations
          ((["w1", "w2", "w3", "w4", "w5", "w6", "w7", "w8", ""].filter
            (fun w => w ≠ BLANK_TOKEN)) ++ [pyNormWord candidate]))
        ["rep1", "rep2"] ∧
      out.length = (["rep1", "rep2"] : List String).length * Nat.factorial 9 ∧
      (∀ s ∈ out, s.length = 9) ∧
      (∀ c ∈ (["rep1", "rep2"] : List String), ∀ p : List String,
        p.Perm ((["w1", "w2", "w3", "w4", "w5", "w6", "w7", "w8", ""].filter
          (fun w => w ≠ BLANK_TOKEN)) ++ [pyNormWord c]) →
        p ∈ out) :=
  c1_blank_generator_count ["w1", "w2", "w3", "w4", "w5", "w6", "w7", "w8", ""]
    ["rep1", "rep2"] (by decide) (by decide) (by decide) (by decide)

/-- Claim C9: in direct mode, a fresh run over K pairwise-distinct valid
words (BIP-39 vocabulary words are lowercase and contain no space, which
is what the word-signature argument needs) yields exactly K! pairs, each
a permutation of the input, covering the full permutation space without
omission, and the identifiers paired with the yields are 0, 1, 2, … in
order. -/
theorem c9_direct_generator_complete (wl : String → Bool) (words : List String)
    (hlow : words.map pyLower = words)
    (hval : validate_word_list wl words = true)
    (hnd : words.Nodup)
    (hsf : ∀ w ∈ words, spaceFree w) :
    ((generate_permutations wl [] words).1).length = Nat.factorial words.length ∧
    (∀ pr ∈ (generate_permutations wl [] words).1, pr.1.Perm words) ∧
    (∀ p : List String, p.Perm words →
      ∃ i, (p, i) ∈ (generate_permutations wl [] words).1) ∧
    (generate_permutations wl [] words).1.map Prod.snd =
      List.range ((generate_permutations wl [] words).1).length := by
  have hgen : generate_permutations wl [] words
      = genPermAux [] 0 (pyPermutations words) := by
    simp only [generate_permutations]
    rw [hlow, if_pos hval]
  have hpermsnd : (pyPermutations words).Nodup := pyPermutations_nodup hnd
  have hpair : (pyPermutations words).Pairwise
      (fun a b => joinWords a ≠ joinWords b) := by
    refine List.Pairwise.imp_of_mem ?_ hpermsnd
    intro a b ha hb hab hj
    apply hab
    refine joinWords_inj ?_ ?_ ?_ hj
    · intro w hw
      exact hsf w ((pyPermutations_sound ha).mem_iff.mp hw)
    · intro w hw
      exact hsf w ((pyPermutations_sound hb).mem_iff.mp hw)
    · rw [(pyPermutations_sound ha).length_eq, (pyPermutations_sound hb).length_eq]
  obtain ⟨hfst, hsnd⟩ := genPermAux_no_skip (pyPermutations words) 0 []
    (fun p _ => List.not_mem_nil _) hpair
  have hlens : (genPermAux [] 0 (pyPermutations words)).1.length
      = (pyPermutations words).length := by
    have := congrArg List.length hfst
    simpa using this
  rw [hgen]
  refine ⟨?_, ?_, ?_, ?_⟩
  · rw [hlens, pyPermutations_length]
  · intro pr hpr
    have hmem : pr.1 ∈ (genPermAux [] 0 (pyPermutations words)).1.map Prod.fst :=
      List.mem_map_of_mem _ hpr
    rw [hfst] at hmem
    exact pyPermutations_sound hmem
  · intro p hp
    have hmem : p ∈ (genPermAux [] 0 (pyPermutations words)).1.map Prod.fst := by
      rw [hfst]
      exact pyPermutations_complete hp
    rw [List.mem_map] at hmem
    obtain ⟨pr, hpr, heq⟩ := hmem
    refine ⟨pr.2, ?_⟩
    have hpr2 : (p, pr.2) = pr := by rw [← heq]
    rw [hpr2]
    exact hpr
  · rw [hsnd, List.range_eq_range', hlens]

/-- Witness for C9 with two distinct lowercase space-free words. -/
theorem c9_direct_generator_complete_witness :
    ((generate_permutations (fun _ => true) [] ["abandon", "ability"]).1).length
      = Nat.factorial (["abandon", "ability"] : List String).length ∧
    (∀ pr ∈ (generate_permutations (fun _ => true) [] ["abandon", "ability"]).1,
      pr.1.Perm ["abandon", "ability"]) ∧
    (∀ p : List String, p.Perm ["abandon", "ability"] →
      ∃ i, (p, i) ∈ (generate_permutations (fun _ => true) [] ["abandon", "ability"]).1) ∧
    (generate_permutations (fun _ => true) [] ["abandon", "ability"]).1.map Prod.snd =
      List.range ((generate_permutations (fun _ => true) [] ["abandon", "ability"]).1).length :=
  c9_direct_generator_complete (fun _ => true) ["abandon", "ability"]
    (by decide) (by decide) (by decide) (by decide)

/-- Witness for the amended C2: a one-word permuted part among two queued
candidates. -/
theorem c2_wordcount_rejects_candidate_witness :
    (∃ e, construct_mnemonic (["x"].map pyLower) (["y"].map pyLower) = .error e) ∧
    process_permutation (fun _ => true) (fun _ => true) (fun _ _ => none) ["p"] "t"
      ["x"] ["y"] = none ∧
    scan_loop (fun _ => true) (fun _ => true) (fun _ _ => none) ["p"] "t" ["y"]
      ((["x"], 7) :: [(["x"], 8)]) =
      ((scan_loop (fun _ => true) (fun _ => true) (fun _ _ => none) ["p"] "t" ["y"]
          [(["x"], 8)]).1,
        7 :: (scan_loop (fun _ => true) (fun _ => true) (fun _ _ => none) ["p"] "t" ["y"]
          [(["x"], 8)]).2) :=
  c2_wordcount_rejects_candidate (fun _ => true) (fun _ => true) (fun _ _ => none)
    ["p"] "t" ["x"] ["y"] 7 [(["x"], 8)] (Or.inl (by decide))
